import Mathlib

/-!
Verification of the computational core of `ProyectoGrafico3D`.

The development shallowly embeds the numeric core of the repository:

* `src/utils/compileExpression.ts` — the formula sanitizer (`sanitizeExpression`),
  the evaluation wrapper (`wrapCallable`) and the compiler (`compileExpression3`).
* `src/components/SurfaceInspector.tsx` — the marching-squares contour
  extractor (`marchingSquares`), the hover-point numeric probe (`localInfo`:
  limit samples, Lagrange estimate), the global statistics pass
  (`globalStats`: zMin/zMax, volume, mass, centroid) and the critical-point
  scan (`scanExtrema`).

Modelling conventions, used throughout:

* JavaScript numbers are idealised as rationals.  A value that is `NaN` (or
  otherwise non-finite) is represented by `none : Option ℚ`; every wrapped
  field produced by the compilers returns a finite value or `NaN`, so
  `Option ℚ` covers exactly the values that flow through the analysed code.
  All divisions performed by the analysed code are by nonzero denominators in
  the regimes stated by the theorems (positive `range`, guarded
  denominators), so JavaScript's `x / 0 = ±Infinity` never arises; the
  `jdiv` fallback for a zero denominator is mapped to the invalid marker.
* JavaScript's `new Function` (the host evaluation engine) is not code of
  this repository; it is modelled as an abstract `Engine` that either throws
  on syntax error (`none`) or yields a raw callable whose calls can throw or
  return an arbitrary (possibly non-finite) number.
-/

/-- JavaScript number as observed by the analysed code: a finite rational, or
the invalid marker (`NaN`, written `none`). -/
abbrev JNum := Option ℚ

/-- Addition with `NaN` propagation (`NaN + x = NaN`). -/
def jadd : JNum → JNum → JNum
  | some a, some b => some (a + b)
  | _, _ => none

/-- Subtraction with `NaN` propagation. -/
def jsub : JNum → JNum → JNum
  | some a, some b => some (a - b)
  | _, _ => none

/-- Multiplication with `NaN` propagation (`NaN * 0 = NaN` as in JavaScript). -/
def jmul : JNum → JNum → JNum
  | some a, some b => some (a * b)
  | _, _ => none

/-- Division with `NaN` propagation.  A zero denominator is mapped to the
invalid marker; every division reached by the analysed code either has a
guard making the denominator positive or receives an already-invalid
operand, so the JavaScript `±Infinity` results are unreachable. -/
def jdiv : JNum → JNum → JNum
  | some a, some b => if b = 0 then none else some (a / b)
  | _, _ => none

/-- The JavaScript comparison `v > 0` (false when `v` is `NaN`). -/
def jgt0 : JNum → Bool
  | some a => decide (0 < a)
  | none => false

/-- The JavaScript comparison `v < 0` (false when `v` is `NaN`). -/
def jlt0 : JNum → Bool
  | some a => decide (a < 0)
  | none => false

/-- The JavaScript strict equality `a === b` on numbers: false whenever either
side is `NaN`. -/
def jeq : JNum → JNum → Bool
  | some a, some b => decide (a = b)
  | _, _ => false

/-! ## Expression compiler (`src/utils/compileExpression.ts`) -/

/-- A word character in the sense of the JavaScript regex class `\w`
(`[A-Za-z0-9_]`), which delimits the `\b` boundaries used by the sanitizer. -/
def isWordChar (c : Char) : Bool := c.isAlphanum || c = '_'

/-- Word boundary `\b` before the current position: holds at the start of the
string or after a non-word character. -/
def boundaryBefore : Option Char → Bool
  | none => true
  | some c => !isWordChar c

/-- Word boundary `\b` after a match: holds at the end of the string or before
a non-word character. -/
def boundaryAfter : List Char → Bool
  | [] => true
  | c :: _ => !isWordChar c

/-- Case-insensitive comparison of a (lower-case) pattern character with an
input character, as performed by the sanitizer's `/.../gi` regexes. -/
def lowerEq (p c : Char) : Bool := p = c.toLower

/-- Case-insensitively match a (lower-case) pattern against a prefix of the
input; on success return the rest of the input. -/
def matchCI : List Char → List Char → Option (List Char)
  | [], rest => some rest
  | _ :: _, [] => none
  | p :: ps, c :: cs => if lowerEq p c then matchCI ps cs else none

/-- Replace every occurrence of the word `p₀ :: ps` (a `\\bword\\b` pattern with
the `gi` flags) by `repl`, scanning left to right and continuing after each
match, exactly as `String.replace` with a global regex does.  `prev` is the
character just before the current position (used for the leading `\\b`).
The fuel argument makes the recursion structural; every step consumes at
least one input character, so fuel equal to the input length never runs
out (the fuel-exhausted branch returns the input unchanged). -/
def wordReplaceCI (p0 : Char) (ps repl : List Char) :
    ℕ → Option Char → List Char → List Char
  | 0, _, l => l
  | _ + 1, _, [] => []
  | fuel + 1, prev, c :: cs =>
    if boundaryBefore prev && lowerEq p0 c then
      match matchCI ps cs with
      | some rest =>
        if boundaryAfter rest then
          repl ++ wordReplaceCI p0 ps repl fuel (some (ps.getLastD p0)) rest
        else
          c :: wordReplaceCI p0 ps repl fuel (some c) cs
      | none => c :: wordReplaceCI p0 ps repl fuel (some c) cs
    else
      c :: wordReplaceCI p0 ps repl fuel (some c) cs

/-- Replace every occurrence of a single character by a string
(the `/π/g` and `/\\^/g` replacements). -/
def charReplace (tgt : Char) (repl : List Char) : List Char → List Char
  | [] => []
  | c :: cs => (if c = tgt then repl else [c]) ++ charReplace tgt repl cs

/-- Skip JavaScript whitespace (the `\\s*` part of the alias patterns). -/
def skipWs : List Char → List Char
  | [] => []
  | c :: cs => if c.isWhitespace then skipWs cs else c :: cs

/-- Replace every occurrence of the alias pattern `\\bname\\s*\\(` (flags `gi`)
by `repl`, as in `FUNCTION_ALIAS_REPLACEMENTS`.  The replacement strings end
in `(`, matching the source.  Fuel as in `wordReplaceCI`. -/
def aliasReplaceCI (p0 : Char) (ps repl : List Char) :
    ℕ → Option Char → List Char → List Char
  | 0, _, l => l
  | _ + 1, _, [] => []
  | fuel + 1, prev, c :: cs =>
    if boundaryBefore prev && lowerEq p0 c then
      match matchCI ps cs with
      | some rest =>
        match skipWs rest with
        | '(' :: rest2 => repl ++ aliasReplaceCI p0 ps repl fuel (some '(') rest2
        | _ => c :: aliasReplaceCI p0 ps repl fuel (some c) cs
      | none => c :: aliasReplaceCI p0 ps repl fuel (some c) cs
    else
      c :: aliasReplaceCI p0 ps repl fuel (some c) cs

/-- The `MATH_FUNCTIONS` list, in source order. -/
def mathNames : List (List Char) :=
  ["abs".data, "acos".data, "acosh".data, "asin".data, "asinh".data, "atan".data,
   "atan2".data, "atanh".data, "cbrt".data, "ceil".data, "clz32".data, "cos".data,
   "cosh".data, "exp".data, "expm1".data, "floor".data, "fround".data, "hypot".data,
   "log".data, "log10".data, "log1p".data, "log2".data, "max".data, "min".data,
   "pow".data, "round".data, "sign".data, "sin".data, "sinh".data, "sqrt".data,
   "tan".data, "tanh".data, "trunc".data]

/-- Try the alternatives of `FUNCTION_REGEXP` in source order at the current
position; return the (lower-case) name that matches with a trailing `\b`,
together with the rest of the input.  Regex alternation with backtracking
tries later alternatives when the trailing boundary fails. -/
def tryNames : List (List Char) → List Char → Option (List Char × List Char)
  | [], _ => none
  | n :: ns, input =>
    match matchCI n input with
    | some rest => if boundaryAfter rest then some (n, rest) else tryNames ns input
    | none => tryNames ns input

/-- One pass of the `FUNCTION_REGEXP` replacement (lines 89\u2013100 of the
source): at each `\\b` boundary, the first alternative matching with a
trailing `\\b` is replaced by `Math.` plus its lower-case name, unless the
last non-whitespace character before the match is a dot (in which case the
match is kept verbatim).  `p0` is the previous character, `lastNS` the last
non-whitespace character seen so far (the source's backwards scan over the
original string).  Fuel as in `wordReplaceCI`. -/
def mathPrefixGo : ℕ → Option Char → Option Char → List Char → List Char
  | 0, _, _, l => l
  | _ + 1, _, _, [] => []
  | fuel + 1, p0, lastNS, c :: cs =>
    if boundaryBefore p0 then
      match tryNames mathNames (c :: cs) with
      | some (n, rest) =>
        let matched := (c :: cs).take n.length
        let last := matched.getLastD c
        (if lastNS = some '.' then matched else "Math.".data ++ n) ++
          mathPrefixGo fuel (some last) (some last) rest
      | none =>
        c :: mathPrefixGo fuel (some c) (if c.isWhitespace then lastNS else some c) cs
    else
      c :: mathPrefixGo fuel (some c) (if c.isWhitespace then lastNS else some c) cs

/-- The full sanitizer pipeline on character lists, in exact source order:
`^ → **`, the constant replacements, the alias replacements, then the
`Math.` prefixing pass. -/
def sanitizeList (l : List Char) : List Char :=
  let l := charReplace '^' "**".data l
  let l := wordReplaceCI 'p' "i".data "Math.PI".data l.length none l
  let l := charReplace 'π' "Math.PI".data l
  let l := wordReplaceCI 't' "au".data "(2*Math.PI)".data l.length none l
  let l := wordReplaceCI 'p' "hi".data "((1+Math.sqrt(5))/2)".data l.length none l
  let l := wordReplaceCI 'd' "eg2rad".data "(Math.PI/180)".data l.length none l
  let l := wordReplaceCI 'r' "ad2deg".data "(180/Math.PI)".data l.length none l
  let l := aliasReplaceCI 's' "en".data "Math.sin(".data l.length none l
  let l := aliasReplaceCI 'l' "n".data "Math.log(".data l.length none l
  let l := aliasReplaceCI 't' "g".data "Math.tan(".data l.length none l
  let l := aliasReplaceCI 's' "ign".data "Math.sign(".data l.length none l
  mathPrefixGo l.length none none l

/-- JavaScript `String.prototype.trim`: strip whitespace from both ends. -/
def jsTrim (l : List Char) : List Char :=
  ((l.dropWhile Char.isWhitespace).reverse.dropWhile Char.isWhitespace).reverse

/-- `sanitizeExpression` (lines 68–103): trim, map the empty formula to
`"0"`, then run the replacement pipeline. -/
def sanitizeExpression (raw : String) : String :=
  let expr := jsTrim raw.data
  if expr = [] then "0" else String.mk (sanitizeList expr)

/-- A JavaScript value coerced by `Number(...)` as in `wrapCallable`:
a finite number, or any non-finite / non-numeric result (which `Number`
turns into `NaN` or `±Infinity`, both rejected by `Number.isFinite`). -/
inductive JsNum where
  | fin (q : ℚ)
  | nonfin
deriving DecidableEq

/-- Outcome of calling a raw host-compiled function: a value, or a thrown
exception. -/
inductive JsOutcome where
  | ok (v : JsNum)
  | exn
deriving DecidableEq

/-- A raw callable produced by the host's `new Function`. -/
abbrev RawFn3 := ℚ → ℚ → ℚ → JsOutcome

/-- The host evaluation engine (`new Function("x","y","t", body)`).  It is
host code, not code of this repository, so it is an abstract parameter:
`none` models a thrown `SyntaxError`, `some f` a successfully compiled raw
callable. -/
abbrev Engine := String → Option RawFn3

/-- A compiled field as seen by every consumer: total, returning a finite
value or the invalid marker, with no exception channel. -/
abbrev Fn3 := ℚ → ℚ → ℚ → JNum

/-- `wrapCallable` (lines 105–115): call the raw function, coerce with
`Number`, keep finite values, and turn exceptions and non-finite values into
`NaN`. -/
def wrapCallable (fn : RawFn3) : Fn3 := fun x y t =>
  match fn x y t with
  | .ok (.fin q) => some q
  | .ok .nonfin => none
  | .exn => none

/-- `compileExpression3` (lines 117–131): sanitize, hand the sanitized text
to the engine, wrap the callable; if the engine throws (parse failure),
return the always-invalid field. -/
def compileExpression3 (E : Engine) (expr : String) : Fn3 :=
  match E (sanitizeExpression expr) with
  | some compiled => wrapCallable compiled
  | none => fun _ _ _ => none

/-- The vocabulary the specification declares reachable: the variables, the
`Math` namespace with its constant `PI`, the recognized function names and
the helper functions of `HELPER_FUNCTION_DEFINITIONS`. -/
def declaredTokens : List String :=
  ["x", "y", "t", "Math", "PI"] ++ mathNames.map String.mk ++
    ["cot", "ctg", "sec", "csc", "sech", "csch", "coth"]

/-! ## Marching squares (`SurfaceInspector.tsx`, lines 513–576) -/

/-- A `THREE.Vector3` produced by the contour extractor: three JavaScript
numbers (the z component is always the literal 0). -/
abbrev MPoint := JNum × JNum × JNum

/-- A contour segment: a pair of endpoints. -/
abbrev MSeg := MPoint × MPoint

/-- Node lookup `grid[i][j]`: out-of-bounds indexing yields `undefined`,
which the subsequent subtraction turns into `NaN`, so it is modelled as the
invalid marker. -/
def nodeAt (g : List (List JNum)) (i j : ℕ) : JNum :=
  ((g[i]?.map (fun row => row[j]?.join)).join)

/-- The shifted node value `v(i,j) = grid[i][j] - level`. -/
def cellVal (g : List (List JNum)) (level : ℚ) (i j : ℕ) : JNum :=
  jsub (nodeAt g i j) (some level)

/-- `interp` (lines 528–531): linear interpolation of the crossing point
along the edge from `(xA,yA)` to `(xB,yB)`, with parameter
`t = vA / (vA − vB)` and `t = 0.5` when `vA === vB`. -/
def interp (xA yA : ℚ) (vA : JNum) (xB yB : ℚ) (vB : JNum) : MPoint :=
  let t : JNum := if jeq vA vB then some (1/2) else jdiv vA (jsub vA vB)
  (jadd (some xA) (jmul t (some (xB - xA))),
   jadd (some yA) (jmul t (some (yB - yA))),
   some 0)

/-- The per-edge crossing array `p` of one cell (lines 553–564): edge 0 is
00→10, edge 1 is 10→11, edge 2 is 11→01, edge 3 is 01→00; an edge whose two
ends have equal sign tests carries `null`. -/
def edgePoints (g : List (List JNum)) (x0 y0 dx dy level : ℚ) (i j : ℕ) :
    List (Option MPoint) :=
  let xA := x0 + i * dx
  let yA := y0 + j * dy
  let xB := x0 + (i + 1) * dx
  let yB := y0 + (j + 1) * dy
  let f00 := cellVal g level i j
  let f10 := cellVal g level (i + 1) j
  let f11 := cellVal g level (i + 1) (j + 1)
  let f01 := cellVal g level i (j + 1)
  [if jgt0 f00 ≠ jgt0 f10 then some (interp xA yA f00 xB yA f10) else none,
   if jgt0 f10 ≠ jgt0 f11 then some (interp xB yA f10 xB yB f11) else none,
   if jgt0 f11 ≠ jgt0 f01 then some (interp xB yB f11 xA yB f01) else none,
   if jgt0 f01 ≠ jgt0 f00 then some (interp xA yB f01 xA yA f00) else none]

/-- The 4-bit sign pattern `idx` of a cell (lines 545–549). -/
def cellIdx (g : List (List JNum)) (level : ℚ) (i j : ℕ) : ℕ :=
  (if jgt0 (cellVal g level i j) then 1 else 0) +
    (if jgt0 (cellVal g level (i + 1) j) then 2 else 0) +
    (if jgt0 (cellVal g level (i + 1) (j + 1)) then 4 else 0) +
    (if jgt0 (cellVal g level i (j + 1)) then 8 else 0)

/-- One marching-squares cell (the body of the nested loop, lines 533–573):
sign pattern, early exit on the two trivial patterns, per-edge crossing
points, and the pairing of the non-null crossings in edge order
(`p.filter(Boolean)`). -/
def msCell (g : List (List JNum)) (x0 y0 dx dy level : ℚ) (i j : ℕ) : List MSeg :=
  if cellIdx g level i j = 0 ∨ cellIdx g level i j = 15 then []
  else
    match ((edgePoints g x0 y0 dx dy level i j).filterMap id : List MPoint) with
    | [a, b] => [(a, b)]
    | [a, b, c, d] => [(a, b), (c, d)]
    | _ => []

/-- `marchingSquares` (lines 514–576): scan every 2×2 cell of the grid and
collect the segments in loop order. -/
def marchingSquares (g : List (List JNum)) (x0 y0 dx dy level : ℚ) : List MSeg :=
  let nx := g.length
  let ny := ((g.head?.map List.length).getD 0)
  (List.range (nx - 1)).flatMap fun i =>
    (List.range (ny - 1)).flatMap fun j => msCell g x0 y0 dx dy level i j

/-! ## Hover-point numerics (`SurfaceInspector.tsx`, `localInfo`, lines 886–947) -/

/-- A compiled two-argument field (density, constraint or domain mask),
already wrapped: finite value or `NaN`. -/
abbrev Fn2 := ℚ → ℚ → JNum

/-- The finite-difference step `h = max(1e-4, range/1000)` (line 889); it is
always positive. -/
def hstep (range : ℚ) : ℚ := max (1/10000) (range / 1000)

/-- Central difference `(g(c+h) − g(c−h)) / (2h)` along one coordinate. -/
def cdiff (g : ℚ → JNum) (c h : ℚ) : JNum :=
  jdiv (jsub (g (c + h)) (g (c - h))) (some (2 * h))

/-- Second central difference `(g(c+h) − 2·g(c) + g(c−h)) / h²`, with the
source's left-to-right association. -/
def secondDiff (g : ℚ → JNum) (c h : ℚ) : JNum :=
  jdiv (jadd (jsub (g (c + h)) (jmul (some 2) (g c))) (g (c - h))) (some (h * h))

/-- The 4-point cross second difference
`(f(x+hx,y+hy) − f(x+hx,y−hy) − f(x−hx,y+hy) + f(x−hx,y−hy)) / (4·hx·hy)`. -/
def crossDiff (f : Fn2) (x y hx hy : ℚ) : JNum :=
  jdiv (jadd (jsub (jsub (f (x + hx) (y + hy)) (f (x + hx) (y - hy)))
      (f (x - hx) (y + hy))) (f (x - hx) (y - hy)))
    (some (4 * hx * hy))

/-- The eight probe directions of the multi-path limit check (lines 898–907). -/
def limitDirs : List (ℤ × ℤ) :=
  [(1, 0), (0, 1), (1, 1), (1, -1), (2, 1), (1, 2), (-1, 1), (-1, -1)]

/-- The five geometrically-halving radii, starting at `h` (lines 910–917). -/
def limitRadii (h : ℚ) : List ℚ := [h, h / 2, h / 4, h / 8, h / 16]

/-- The valid limit samples, in loop order: directions outer, radii inner;
invalid field values are excluded (`if (Number.isFinite(vv)) samples.push`). -/
def limitSamples (f : Fn3) (x y t h : ℚ) : List ℚ :=
  limitDirs.flatMap fun d =>
    (limitRadii h).filterMap fun r => f (x + (d.1 : ℚ) * r) (y + (d.2 : ℚ) * r) t

/-- The sample mean (line 919): `NaN` when there are no samples. -/
def limitMean (s : List ℚ) : JNum :=
  if 0 < s.length then some (s.sum / s.length) else none

/-- The (Bessel-corrected) sample variance (lines 920–923): `NaN` when fewer
than 2 samples remain. -/
def limitVariance (s : List ℚ) : JNum :=
  if 1 < s.length then
    match limitMean s with
    | some m => some ((s.map fun b => (b - m) * (b - m)).sum / ((s.length : ℚ) - 1))
    | none => none
  else none

/-- The consistency verdict (line 942):
`Number.isFinite(variance) ? variance < 1e-4 * (1 + Math.abs(mean)) : false`.
A `NaN` mean makes the comparison false, as in JavaScript. -/
def limitConsistent (s : List ℚ) : Bool :=
  match limitVariance s, limitMean s with
  | some v, some m => decide (v < (1 / 10000) * (1 + |m|))
  | some _, none => false
  | none, _ => false

/-- The squared gradient norm of the constraint `‖∇g‖²` (line 931). -/
def lagDenom (g : Fn2) (x y h : ℚ) : JNum :=
  let gx := cdiff (fun c => g c y) x h
  let gy := cdiff (fun c => g x c) y h
  jadd (jmul gx gx) (jmul gy gy)

/-- The Lagrange-multiplier estimate (line 932):
`denom > 0 ? (fx*gx + fy*gy) / denom : NaN`. -/
def lagrangeLam (g : Fn2) (fx fy : JNum) (x y h : ℚ) : JNum :=
  let gx := cdiff (fun c => g c y) x h
  let gy := cdiff (fun c => g x c) y h
  let denom := jadd (jmul gx gx) (jmul gy gy)
  if jgt0 denom then jdiv (jadd (jmul fx gx) (jmul fy gy)) denom else none

/-! ## Global statistics (`SurfaceInspector.tsx`, lines 840–883) -/

/-- Domain-mask admissibility: `domFun ? domFun(x,y) <= 0 : true`; a `NaN`
mask value makes the comparison false, so the point is skipped (lines 860 and
961). -/
def insideDom (dom : Option Fn2) (x y : ℚ) : Bool :=
  match dom with
  | none => true
  | some hf =>
    match hf x y with
    | some v => decide (v ≤ 0)
    | none => false

/-- The integration resolution `N = max(16, min(200, resolution))` (line 841). -/
def statN (res : ℕ) : ℕ := max 16 (min 200 res)

/-- Running statistics of the integration loop.  The source seeds
`zMin = Infinity` / `zMax = -Infinity`; those sentinels are modelled as
`none` with `minUpd`/`maxUpd` performing the first-sample initialisation. -/
structure GStats where
  zMin : Option ℚ
  zMax : Option ℚ
  vol : ℚ
  mass : JNum
  mx : JNum
  my : JNum
  mz : JNum
deriving DecidableEq

/-- `zMin = Math.min(zMin, z)` with the `Infinity` sentinel. -/
def minUpd : Option ℚ → ℚ → Option ℚ
  | none, z => some z
  | some m, z => some (min m z)

/-- `zMax = Math.max(zMax, z)` with the `-Infinity` sentinel. -/
def maxUpd : Option ℚ → ℚ → Option ℚ
  | none, z => some z
  | some m, z => some (max m z)

/-- The admissibility-plus-finiteness filter of one loop iteration: the cell
contributes its value `z` exactly when the mask admits the point and the
field value is finite. -/
def statContrib (f : Fn3) (dom : Option Fn2) (x y : ℚ) : Option ℚ :=
  if insideDom dom x y then f x y 0 else none

/-- The accumulation performed for one admissible finite sample
(lines 864–875): `h = max(0, z)`, `dV = h·dA`, `dM = σ·dV`, plus the three
first moments, with `mz` using `(h·h·0.5)·σ·dA`. -/
def statUpdate (dens : Fn2) (dA : ℚ) (acc : GStats) (x y z : ℚ) : GStats :=
  let hh := max 0 z
  let sigma := dens x y
  let dV := hh * dA
  let dM := jmul sigma (some dV)
  { zMin := minUpd acc.zMin z
    zMax := maxUpd acc.zMax z
    vol := acc.vol + dV
    mass := jadd acc.mass dM
    mx := jadd acc.mx (jmul (some x) dM)
    my := jadd acc.my (jmul (some y) dM)
    mz := jadd acc.mz (jmul (jmul (some (hh * hh * (1/2))) sigma) (some dA)) }

/-- One iteration of the integration loop. -/
def statStep (f : Fn3) (dens : Fn2) (dom : Option Fn2) (dA : ℚ) (acc : GStats)
    (p : ℚ × ℚ) : GStats :=
  match statContrib f dom p.1 p.2 with
  | some z => statUpdate dens dA acc p.1 p.2 z
  | none => acc

/-- The cell-centre sample points, outer loop over `j` (the `y` index), inner
loop over `i` (lines 854–857): `x = -range + (i+0.5)·dx`. -/
def statPoints (range : ℚ) (N : ℕ) : List (ℚ × ℚ) :=
  (List.range N).flatMap fun (j : ℕ) =>
    (List.range N).map fun (i : ℕ) =>
      (-range + ((i : ℚ) + 1/2) * (2 * range / N),
       -range + ((j : ℚ) + 1/2) * (2 * range / N))

/-- The initial accumulator (lines 842–848). -/
def statInit : GStats := ⟨none, none, 0, some 0, some 0, some 0, some 0⟩

/-- The whole integration pass (lines 840–878). -/
def globalStats (f : Fn3) (dens : Fn2) (dom : Option Fn2) (range : ℚ) (res : ℕ) : GStats :=
  let N := statN res
  let dA := (2 * range / N) * (2 * range / N)
  (statPoints range N).foldl (statStep f dens dom dA) statInit

/-- The admissible finite samples of the integration grid, in loop order. -/
def statSamples (f : Fn3) (dom : Option Fn2) (range : ℚ) (res : ℕ) : List ℚ :=
  (statPoints range (statN res)).filterMap fun p => statContrib f dom p.1 p.2

/-- The centroid (line 879): `mass > 0 ? moments/mass : NaN` in all three
coordinates. -/
def statCom (s : GStats) : JNum × JNum × JNum :=
  if jgt0 s.mass then (jdiv s.mx s.mass, jdiv s.my s.mass, jdiv s.mz s.mass)
  else (none, none, none)

/-! ## Critical-point scan (`SurfaceInspector.tsx`, lines 949–990) -/

/-- Classification of a surviving stationary candidate. -/
inductive CPKind where
  | max
  | min
  | saddle
deriving DecidableEq

/-- A reported critical point `{x, y, z, type}`. -/
structure CritPoint where
  x : ℚ
  y : ℚ
  z : ℚ
  kind : CPKind
deriving DecidableEq

/-- The scan resolution `Nx = max(24, min(120, resolution))` (line 952). -/
def scanRes (res : ℕ) : ℕ := max 24 (min 120 res)

/-- The near-stationarity tolerance `ε = 1e-2 · max(1, range)` (line 956). -/
def epsGrad (range : ℚ) : ℚ := (1/100) * max 1 range

/-- The skip test (line 973): `!Number.isFinite(gnorm) || gnorm > epsGrad`
where `gnorm = Math.hypot(fx, fy)`.  With finite operands and `ε > 0`,
`hypot(a,b) > ε ↔ a² + b² > ε²`, which keeps the test inside ℚ; a non-finite
component makes `hypot` non-finite, so the point is skipped. -/
def gradSkip (fx fy : JNum) (eps : ℚ) : Bool :=
  match fx, fy with
  | some a, some b => decide (eps ^ 2 < a ^ 2 + b ^ 2)
  | _, _ => true

/-- The grid x-coordinate of scan column `i` (line 964). -/
def scanX (range : ℚ) (N : ℕ) (i : ℕ) : ℚ := -range + (i : ℚ) * (2 * range / N)

/-- The scan grid step `dx = dy = 2·range/Nx` (lines 954–955). -/
def scanDx (range : ℚ) (N : ℕ) : ℚ := 2 * range / N

/-- The central-difference `fx` at scan point `(i, j)` (line 970). -/
def scanFx (f : Fn2) (range : ℚ) (N i j : ℕ) : JNum :=
  cdiff (fun c => f c (scanX range N j)) (scanX range N i) (scanDx range N)

/-- The central-difference `fy` at scan point `(i, j)` (line 971). -/
def scanFy (f : Fn2) (range : ℚ) (N i j : ℕ) : JNum :=
  cdiff (fun c => f (scanX range N i) c) (scanX range N j) (scanDx range N)

/-- The second difference `fxx` at scan point `(i, j)` (line 976). -/
def scanFxx (f : Fn2) (range : ℚ) (N i j : ℕ) : JNum :=
  secondDiff (fun c => f c (scanX range N j)) (scanX range N i) (scanDx range N)

/-- The second difference `fyy` at scan point `(i, j)` (line 977). -/
def scanFyy (f : Fn2) (range : ℚ) (N i j : ℕ) : JNum :=
  secondDiff (fun c => f (scanX range N i) c) (scanX range N j) (scanDx range N)

/-- The cross second difference `fxy` at scan point `(i, j)` (line 978). -/
def scanFxy (f : Fn2) (range : ℚ) (N i j : ℕ) : JNum :=
  crossDiff f (scanX range N i) (scanX range N j) (scanDx range N) (scanDx range N)

/-- The discriminant `D = fxx·fyy − fxy²` at scan point `(i, j)` (line 980). -/
def scanD (f : Fn2) (range : ℚ) (N i j : ℕ) : JNum :=
  jsub (jmul (scanFxx f range N i j) (scanFyy f range N i j))
    (jmul (scanFxy f range N i j) (scanFxy f range N i j))

/-- The loop body for one interior grid point (lines 967–987): mask test,
central-difference gradient with the near-stationarity filter, Hessian,
discriminant and classification.  `none` means the point contributes no
critical point. -/
def scanClassify (f : Fn2) (dom : Option Fn2) (range : ℚ) (N : ℕ) (i j : ℕ) :
    Option CritPoint :=
  let x := scanX range N i
  let y := scanX range N j
  if insideDom dom x y then
    if gradSkip (scanFx f range N i j) (scanFy f range N i j) (epsGrad range) then none
    else
      match scanD f range N i j, f x y with
      | some d, some z =>
        if decide (0 < d) && jlt0 (scanFxx f range N i j) then some ⟨x, y, z, CPKind.max⟩
        else if decide (0 < d) && jgt0 (scanFxx f range N i j) then some ⟨x, y, z, CPKind.min⟩
        else if decide (d < 0) then some ⟨x, y, z, CPKind.saddle⟩
        else none
      | _, _ => none
  else none

/-- The full scan (lines 963–988): interior grid points only
(`for i = 1; i < Nx-1` and likewise for `j`), outer loop over `i`. -/
def scanExtrema (f : Fn2) (dom : Option Fn2) (range : ℚ) (res : ℕ) : List CritPoint :=
  let N := scanRes res
  (List.range' 1 (N - 2)).flatMap fun i =>
    (List.range' 1 (N - 2)).filterMap fun j => scanClassify f dom range N i j

/-! ## Theorems -/

/-- C1: for every formula string, `compileExpression3` never raises to its
caller (its result type has no exception channel, and both the engine's
syntax errors and the raw callable's runtime exceptions are absorbed), and
whenever the formula fails to parse the returned field yields the invalid
marker for every input; an evaluation that throws or returns a non-finite
value likewise yields the invalid marker at that input, and every non-invalid
result is the finite value produced by the raw callable. -/
theorem compile_total_and_invalid_on_failure (E : Engine) (expr : String) (x y t : ℚ) :
    (E (sanitizeExpression expr) = none → compileExpression3 E expr x y t = none) ∧
    (∀ f, E (sanitizeExpression expr) = some f → f x y t = JsOutcome.exn →
      compileExpression3 E expr x y t = none) ∧
    (∀ f, E (sanitizeExpression expr) = some f → f x y t = JsOutcome.ok JsNum.nonfin →
      compileExpression3 E expr x y t = none) ∧
    (compileExpression3 E expr x y t = none ∨
      ∃ f q, E (sanitizeExpression expr) = some f ∧ f x y t = JsOutcome.ok (JsNum.fin q) ∧
        compileExpression3 E expr x y t = some q) := by
  unfold compileExpression3
  refine ⟨?_, ?_, ?_, ?_⟩
  · intro h
    rw [h]
  · intro f hf hcall
    rw [hf]
    simp [wrapCallable, hcall]
  · intro f hf hcall
    rw [hf]
    simp [wrapCallable, hcall]
  · cases hE : E (sanitizeExpression expr) with
    | none => exact Or.inl rfl
    | some f =>
      cases hcall : f x y t with
      | exn => exact Or.inl (by simp [wrapCallable, hcall])
      | ok v =>
        cases v with
        | nonfin => exact Or.inl (by simp [wrapCallable, hcall])
        | fin q => exact Or.inr ⟨f, q, rfl, hcall, by simp [wrapCallable, hcall]⟩

theorem compile_total_and_invalid_on_failure_witness :
    compileExpression3 (fun _ => none) "((x" 0 0 0 = none :=
  (compile_total_and_invalid_on_failure (fun _ => none) "((x" 0 0 0).1 rfl

/-- C2 (refuted on the code): the token `globalThis` is neither a declared
variable, a numeric literal, a recognized function nor an operator, yet the
sanitizer passes it through verbatim, and `compileExpression3` hands the
sanitized text directly to the host's `new Function`, where such a token
resolves against the host's global scope instead of failing substitution.
The compiled formula therefore reaches the host's general-purpose evaluation
surface (e.g. the formula `Date.now()` calls the host clock), contradicting
the claimed confinement to arithmetic and the declared vocabulary. -/
theorem sanitize_passes_undeclared_host_token :
    sanitizeExpression "globalThis" = "globalThis" ∧
    "globalThis" ∉ declaredTokens ∧
    (∀ E : Engine, compileExpression3 E "globalThis" =
      match E "globalThis" with
      | some compiled => wrapCallable compiled
      | none => fun _ _ _ => none) := by
  have hsan : sanitizeExpression "globalThis" = "globalThis" := by decide
  refine ⟨hsan, by decide, ?_⟩
  intro E
  unfold compileExpression3
  rw [hsan]

/-- C10: an empty or whitespace-only formula is normalized to the constant
`"0"`, and with a host engine that evaluates the literal `0` to itself the
compiled field returns 0 for every input — not the always-invalid field. -/
theorem compile_empty_formula_yields_zero (E : Engine) (raw : String) (f : RawFn3)
    (htrim : jsTrim raw.data = [])
    (hE : E "0" = some f)
    (hf : ∀ x y t, f x y t = JsOutcome.ok (JsNum.fin 0)) :
    sanitizeExpression raw = "0" ∧
    ∀ x y t, compileExpression3 E raw x y t = some 0 := by
  have hs : sanitizeExpression raw = "0" := by
    unfold sanitizeExpression
    rw [htrim]
    rfl
  refine ⟨hs, ?_⟩
  intro x y t
  unfold compileExpression3
  rw [hs, hE]
  simp [wrapCallable, hf]

theorem compile_empty_formula_yields_zero_witness :
    sanitizeExpression "   " = "0" ∧
    compileExpression3
      (fun s => if s = "0" then some (fun _ _ _ => JsOutcome.ok (JsNum.fin 0)) else none)
      "   " 1 2 3 = some 0 := by
  have h := compile_empty_formula_yields_zero
    (fun s => if s = "0" then some (fun _ _ _ => JsOutcome.ok (JsNum.fin 0)) else none)
    "   " (fun _ _ _ => JsOutcome.ok (JsNum.fin 0)) (by decide) (by simp)
    (fun _ _ _ => rfl)
  exact ⟨h.1, h.2 1 2 3⟩

/-- A contour point is finite in all coordinates. -/
def finitePt (p : MPoint) : Prop :=
  (∃ q, p.1 = some q) ∧ (∃ q, p.2.1 = some q) ∧ (∃ q, p.2.2 = some q)

theorem interp_finite (xA yA xB yB a b : ℚ) :
    finitePt (interp xA yA (some a) xB yB (some b)) := by
  unfold interp finitePt
  by_cases hab : a = b
  · subst hab
    simp [jeq, jdiv, jsub, jadd, jmul]
  · have hne : a - b ≠ 0 := sub_ne_zero.mpr hab
    simp [jeq, hab, jdiv, jsub, jadd, jmul, hne]

/-- C5: a marching-squares cell whose four shifted node values lie strictly
on one side of zero contributes no segments; the crossing point of a
bisected edge is linearly interpolated with parameter `t = vA/(vA−vB)`
(and `t = 0.5` when `vA = vB`); and in the diagonally-ambiguous 4-crossing
patterns the four crossing points are paired in edge-test order: the points
of edges 0 and 1 form one segment, those of edges 2 and 3 the other. -/
theorem msCell_char (g : List (List JNum)) (x0 y0 dx dy level : ℚ) (i j : ℕ) :
    ((∃ a00 a10 a11 a01,
        cellVal g level i j = some a00 ∧ cellVal g level (i+1) j = some a10 ∧
        cellVal g level (i+1) (j+1) = some a11 ∧ cellVal g level i (j+1) = some a01 ∧
        ((0 < a00 ∧ 0 < a10 ∧ 0 < a11 ∧ 0 < a01) ∨
         (a00 < 0 ∧ a10 < 0 ∧ a11 < 0 ∧ a01 < 0))) →
      msCell g x0 y0 dx dy level i j = []) ∧
    (∀ xA yA xB yB a b : ℚ,
      (a ≠ b → interp xA yA (some a) xB yB (some b) =
        (some (xA + a / (a - b) * (xB - xA)), some (yA + a / (a - b) * (yB - yA)), some 0)) ∧
      interp xA yA (some a) xB yB (some a) =
        (some (xA + 1/2 * (xB - xA)), some (yA + 1/2 * (yB - yA)), some 0)) ∧
    ((jgt0 (cellVal g level i j) ≠ jgt0 (cellVal g level (i+1) j) ∧
      jgt0 (cellVal g level (i+1) j) ≠ jgt0 (cellVal g level (i+1) (j+1)) ∧
      jgt0 (cellVal g level (i+1) (j+1)) ≠ jgt0 (cellVal g level i (j+1)) ∧
      jgt0 (cellVal g level i (j+1)) ≠ jgt0 (cellVal g level i j)) →
      msCell g x0 y0 dx dy level i j =
        [(interp (x0 + i*dx) (y0 + j*dy) (cellVal g level i j)
            (x0 + (i+1)*dx) (y0 + j*dy) (cellVal g level (i+1) j),
          interp (x0 + (i+1)*dx) (y0 + j*dy) (cellVal g level (i+1) j)
            (x0 + (i+1)*dx) (y0 + (j+1)*dy) (cellVal g level (i+1) (j+1))),
         (interp (x0 + (i+1)*dx) (y0 + (j+1)*dy) (cellVal g level (i+1) (j+1))
            (x0 + i*dx) (y0 + (j+1)*dy) (cellVal g level i (j+1)),
          interp (x0 + i*dx) (y0 + (j+1)*dy) (cellVal g level i (j+1))
            (x0 + i*dx) (y0 + j*dy) (cellVal g level i j))]) := by
  refine ⟨?_, ?_, ?_⟩
  · rintro ⟨a00, a10, a11, a01, h00, h10, h11, h01, hside⟩
    rcases hside with ⟨p00, p10, p11, p01⟩ | ⟨p00, p10, p11, p01⟩ <;>
      simp [msCell, cellIdx, edgePoints, h00, h10, h11, h01, jgt0, p00, p10, p11, p01,
        not_lt.mpr (le_of_lt p00), not_lt.mpr (le_of_lt p10),
        not_lt.mpr (le_of_lt p11), not_lt.mpr (le_of_lt p01)]
  · intro xA yA xB yB a b
    constructor
    · intro hab
      have hne : a - b ≠ 0 := sub_ne_zero.mpr hab
      simp [interp, jeq, hab, jdiv, jsub, jadd, jmul, hne]
    · simp [interp, jeq, jdiv, jsub, jadd, jmul]
  · rintro ⟨h1, h2, h3, h4⟩
    cases hb00 : jgt0 (cellVal g level i j) <;>
      cases hb10 : jgt0 (cellVal g level (i+1) j) <;>
      cases hb11 : jgt0 (cellVal g level (i+1) (j+1)) <;>
      cases hb01 : jgt0 (cellVal g level i (j+1)) <;>
      simp_all [msCell, cellIdx, edgePoints]

theorem msCell_char_witness :
    msCell [[some 1, some (-1)], [some (-1), some 1]] 0 0 1 1 0 0 0 =
      [((some (1/2), some 0, some 0), (some 1, some (1/2), some 0)),
       ((some (1/2), some 1, some 0), (some 0, some (1/2), some 0))] := by
  have h := (msCell_char [[some 1, some (-1)], [some (-1), some 1]] 0 0 1 1 0 0 0).2.2
    (by norm_num [cellVal, nodeAt, jsub, jgt0])
  rw [h]
  norm_num [cellVal, nodeAt, jsub, jgt0, interp, jeq, jadd, jmul, jdiv]

theorem msCell_cases (g : List (List JNum)) (x0 y0 dx dy level : ℚ) (i j : ℕ) :
    msCell g x0 y0 dx dy level i j = [] ∨
    (∃ a b, (edgePoints g x0 y0 dx dy level i j).filterMap id = [a, b] ∧
      msCell g x0 y0 dx dy level i j = [(a, b)]) ∨
    (∃ a b c d, (edgePoints g x0 y0 dx dy level i j).filterMap id = [a, b, c, d] ∧
      msCell g x0 y0 dx dy level i j = [(a, b), (c, d)]) := by
  unfold msCell
  split
  · exact Or.inl rfl
  · split
    · rename_i a b heq
      exact Or.inr (Or.inl ⟨a, b, heq, rfl⟩)
    · rename_i a b c d heq
      exact Or.inr (Or.inr ⟨a, b, c, d, heq, rfl⟩)
    · exact Or.inl rfl

theorem msCell_endpoint_mem (g : List (List JNum)) (x0 y0 dx dy level : ℚ) (i j : ℕ)
    (s : MSeg) (hs : s ∈ msCell g x0 y0 dx dy level i j) :
    s.1 ∈ (edgePoints g x0 y0 dx dy level i j).filterMap id ∧
    s.2 ∈ (edgePoints g x0 y0 dx dy level i j).filterMap id := by
  rcases msCell_cases g x0 y0 dx dy level i j with h | ⟨a, b, hL, h⟩ | ⟨a, b, c, d, hL, h⟩ <;>
    rw [h] at hs
  · simp at hs
  · simp only [List.mem_cons, List.not_mem_nil, or_false] at hs
    subst hs
    rw [hL]
    simp
  · simp only [List.mem_cons, List.not_mem_nil, or_false] at hs
    rcases hs with hs | hs <;> subst hs <;> rw [hL] <;> simp

theorem nodeAt_some (g : List (List JNum)) (ny : ℕ) (i j : ℕ)
    (hrect : ∀ row ∈ g, row.length = ny)
    (hfin : ∀ row ∈ g, ∀ v ∈ row, v ≠ none)
    (hi : i < g.length) (hj : j < ny) : ∃ q, nodeAt g i j = some q := by
  have hrow : g[i]? = some g[i] := List.getElem?_eq_getElem hi
  have hmem : g[i] ∈ g := List.getElem_mem hi
  have hlen : g[i].length = ny := hrect _ hmem
  have hj2 : j < g[i].length := hlen ▸ hj
  have hv : g[i][j]? = some g[i][j] := List.getElem?_eq_getElem hj2
  have hvm : g[i][j] ∈ g[i] := List.getElem_mem hj2
  have hne := hfin _ hmem _ hvm
  cases hq : g[i][j] with
  | none => exact absurd hq hne
  | some q =>
    refine ⟨q, ?_⟩
    unfold nodeAt
    rw [hrow]
    simp [hv, hq]

theorem edgePoints_finite (g : List (List JNum)) (x0 y0 dx dy level : ℚ) (i j : ℕ)
    (a00 a10 a11 a01 : ℚ)
    (h00 : nodeAt g i j = some a00) (h10 : nodeAt g (i+1) j = some a10)
    (h11 : nodeAt g (i+1) (j+1) = some a11) (h01 : nodeAt g i (j+1) = some a01) :
    ∀ p ∈ (edgePoints g x0 y0 dx dy level i j).filterMap id, finitePt p := by
  intro p hp
  have c00 : cellVal g level i j = some (a00 - level) := by simp [cellVal, h00, jsub]
  have c10 : cellVal g level (i+1) j = some (a10 - level) := by simp [cellVal, h10, jsub]
  have c11 : cellVal g level (i+1) (j+1) = some (a11 - level) := by simp [cellVal, h11, jsub]
  have c01 : cellVal g level i (j+1) = some (a01 - level) := by simp [cellVal, h01, jsub]
  simp only [edgePoints, c00, c10, c11, c01, List.mem_filterMap, List.mem_cons,
    List.not_mem_nil, or_false, id] at hp
  obtain ⟨o, ho, hop⟩ := hp
  rcases ho with rfl | rfl | rfl | rfl <;>
    · split at hop
      · rw [Option.some.injEq] at hop
        subst hop
        apply interp_finite
      · exact absurd hop (by simp)

/-- C6 (amended): an invalid (`NaN`) node compares false against the level,
so a cell whose four nodes are all invalid emits nothing, and on a grid with
no invalid nodes (rectangular rows) every emitted segment endpoint is a
finite coordinate pair; however — as the counterexample
`marchingSquares_nan_cell_emits_nan_segment` shows — a cell mixing an invalid
node with a node above the level does emit a crossing on the adjacent edges,
and the interpolated endpoints of that segment carry invalid (`NaN`)
coordinates to the downstream consumer. -/
theorem marchingSquares_invalid_handling (g : List (List JNum)) (x0 y0 dx dy level : ℚ) :
    ((∀ row ∈ g, row.length = (g.head?.map List.length).getD 0) →
     (∀ row ∈ g, ∀ v ∈ row, v ≠ none) →
     ∀ s ∈ marchingSquares g x0 y0 dx dy level, finitePt s.1 ∧ finitePt s.2) ∧
    (∀ i j, nodeAt g i j = none → nodeAt g (i+1) j = none →
      nodeAt g (i+1) (j+1) = none → nodeAt g i (j+1) = none →
      msCell g x0 y0 dx dy level i j = []) := by
  constructor
  · intro hrect hfin s hs
    unfold marchingSquares at hs
    simp only [List.mem_flatMap, List.mem_range] at hs
    obtain ⟨i, hi, j, hj, hs⟩ := hs
    have hi1 : i < g.length := by omega
    have hi2 : i + 1 < g.length := by omega
    have hj1 : j < (g.head?.map List.length).getD 0 := by omega
    have hj2 : j + 1 < (g.head?.map List.length).getD 0 := by omega
    obtain ⟨a00, h00⟩ := nodeAt_some g _ i j hrect hfin hi1 hj1
    obtain ⟨a10, h10⟩ := nodeAt_some g _ (i+1) j hrect hfin hi2 hj1
    obtain ⟨a11, h11⟩ := nodeAt_some g _ (i+1) (j+1) hrect hfin hi2 hj2
    obtain ⟨a01, h01⟩ := nodeAt_some g _ i (j+1) hrect hfin hi1 hj2
    obtain ⟨hm1, hm2⟩ := msCell_endpoint_mem g x0 y0 dx dy level i j s hs
    exact ⟨edgePoints_finite g x0 y0 dx dy level i j a00 a10 a11 a01 h00 h10 h11 h01 _ hm1,
           edgePoints_finite g x0 y0 dx dy level i j a00 a10 a11 a01 h00 h10 h11 h01 _ hm2⟩
  · intro i j h00 h10 h11 h01
    have c00 : cellVal g level i j = none := by simp [cellVal, h00, jsub]
    have c10 : cellVal g level (i+1) j = none := by simp [cellVal, h10, jsub]
    have c11 : cellVal g level (i+1) (j+1) = none := by simp [cellVal, h11, jsub]
    have c01 : cellVal g level i (j+1) = none := by simp [cellVal, h01, jsub]
    simp [msCell, cellIdx, c00, c10, c11, c01, jgt0]

/-- C6 (counterexample): on the 2×2 grid whose node (0,0) is invalid and
whose other nodes are 1, a level-0 contour segment is emitted whose
endpoints have `NaN` coordinates — the invalid-adjacent sides do contribute
crossing edges, and a non-finite endpoint reaches the consumer. -/
theorem marchingSquares_nan_cell_emits_nan_segment :
    nodeAt [[none, some 1], [some 1, some 1]] 0 0 = none ∧
    marchingSquares [[none, some 1], [some 1, some 1]] 0 0 1 1 0 =
      [((none, none, some 0), (none, none, some 0))] := by
  constructor
  · rfl
  · with_unfolding_all rfl

theorem marchingSquares_invalid_handling_witness :
    finitePt (some (1/2), some 0, some 0) ∧ finitePt (some 0, some (1/2), some 0) := by
  have heq : marchingSquares [[some (-1), some 1], [some 1, some 1]] 0 0 1 1 0 =
      [((some (1/2), some 0, some 0), (some 0, some (1/2), some 0))] := by
    with_unfolding_all rfl
  exact (marchingSquares_invalid_handling [[some (-1), some 1], [some 1, some 1]] 0 0 1 1 0).1
    (by simp) (by simp)
    ((some (1/2), some 0, some 0), (some 0, some (1/2), some 0))
    (by rw [heq]; simp)

theorem limitMean_of_pos (s : List ℚ) (h : 0 < s.length) :
    limitMean s = some (s.sum / s.length) := by
  simp [limitMean, h]

theorem limitVariance_of_two (s : List ℚ) (h : 1 < s.length) :
    limitVariance s =
      some ((s.map fun b => (b - s.sum / s.length) * (b - s.sum / s.length)).sum /
        ((s.length : ℚ) - 1)) := by
  rw [limitVariance, if_pos h, limitMean_of_pos s (by omega)]

/-- C4: the limit-consistency check samples the field along the 8 distinct
probe directions at the 5 geometrically-halving radii starting at
`h = max(1e-4, range/1000)`, keeps only samples where the field is valid,
and reports consistency exactly when the sample variance is defined (at
least two valid samples) and below `1e-4·(1+|mean|)`; with fewer than two
valid samples the variance is the invalid marker and consistency is false. -/
theorem limit_consistency_check (f : Fn3) (x y t range : ℚ) :
    (limitConsistent (limitSamples f x y t (hstep range)) = true ↔
      2 ≤ (limitSamples f x y t (hstep range)).length ∧
      ∃ v m, limitVariance (limitSamples f x y t (hstep range)) = some v ∧
        limitMean (limitSamples f x y t (hstep range)) = some m ∧
        v < (1 / 10000) * (1 + |m|)) ∧
    ((limitSamples f x y t (hstep range)).length < 2 →
      limitVariance (limitSamples f x y t (hstep range)) = none ∧
      limitConsistent (limitSamples f x y t (hstep range)) = false) ∧
    limitDirs.length = 8 ∧ limitDirs.Nodup ∧
    limitRadii (hstep range) =
      [hstep range, hstep range / 2, hstep range / 4, hstep range / 8, hstep range / 16] ∧
    (∀ v ∈ limitSamples f x y t (hstep range),
      ∃ d ∈ limitDirs, ∃ r ∈ limitRadii (hstep range),
        f (x + (d.1 : ℚ) * r) (y + (d.2 : ℚ) * r) t = some v) := by
  set s := limitSamples f x y t (hstep range) with hs
  refine ⟨?_, ?_, by decide, by decide, rfl, ?_⟩
  · by_cases h2 : 1 < s.length
    · rw [limitVariance_of_two s h2, limitConsistent,
        limitVariance_of_two s h2, limitMean_of_pos s (by omega)]
      constructor
      · intro hc
        refine ⟨by omega, ⟨_, _, rfl, rfl, by simpa using hc⟩⟩
      · rintro ⟨-, v, m, hv, hm, hlt⟩
        rw [Option.some.injEq] at hv hm
        subst hv; subst hm
        simpa using hlt
    · have hv : limitVariance s = none := by rw [limitVariance, if_neg h2]
      rw [limitConsistent, hv]
      constructor
      · intro hc
        exact absurd hc (by simp)
      · rintro ⟨hlen, -⟩
        omega
  · intro hlen
    have hv : limitVariance s = none := by rw [limitVariance, if_neg (by omega)]
    refine ⟨hv, ?_⟩
    rw [limitConsistent, hv]
  · intro v hv
    rw [hs] at hv
    unfold limitSamples at hv
    rw [List.mem_flatMap] at hv
    obtain ⟨d, hd, hv⟩ := hv
    rw [List.mem_filterMap] at hv
    obtain ⟨r, hr, hfr⟩ := hv
    exact ⟨d, hd, r, hr, hfr⟩

theorem limit_consistency_check_witness :
    limitVariance (limitSamples (fun _ _ _ => none) 0 0 0 (hstep 1)) = none ∧
    limitConsistent (limitSamples (fun _ _ _ => none) 0 0 0 (hstep 1)) = false := by
  have h := (limit_consistency_check (fun _ _ _ => none) 0 0 0 1).2.1
  exact h (by rw [show limitSamples (fun _ _ _ => none) 0 0 0 (hstep 1) = [] from rfl]; simp)

/-- C7: both degenerate denominators yield an explicit invalid result and
never a division fault: the Lagrange estimate is the invalid marker unless
`‖∇g‖²` is a finite positive value (in particular when it is 0 or `NaN`),
and a zero (or non-positive or invalid) accumulated mass makes the centroid
invalid in all three coordinates. -/
theorem degenerate_denominators_undefined (g : Fn2) (fx fy : JNum) (x y h : ℚ)
    (st : GStats) :
    (jgt0 (lagDenom g x y h) = false → lagrangeLam g fx fy x y h = none) ∧
    (∀ v, lagrangeLam g fx fy x y h = some v →
      ∃ d, lagDenom g x y h = some d ∧ 0 < d) ∧
    (st.mass = some 0 → statCom st = (none, none, none)) ∧
    (jgt0 st.mass = false → statCom st = (none, none, none)) := by
  refine ⟨?_, ?_, ?_, ?_⟩
  · intro hd
    unfold lagrangeLam
    unfold lagDenom at hd
    simp only [hd]
    rfl
  · intro v hv
    unfold lagrangeLam at hv
    set denom := jadd (jmul (cdiff (fun c => g c y) x h) (cdiff (fun c => g c y) x h))
      (jmul (cdiff (fun c => g x c) y h) (cdiff (fun c => g x c) y h)) with hden
    by_cases hgt : jgt0 denom = true
    · cases hd : denom with
      | none => rw [hd] at hgt; exact absurd hgt (by simp [jgt0])
      | some d =>
        refine ⟨d, ?_, ?_⟩
        · unfold lagDenom
          rw [← hden, hd]
        · rw [hd] at hgt
          simpa [jgt0] using hgt
    · rw [if_neg hgt] at hv
      exact absurd hv (by simp)
  · intro hm
    unfold statCom
    rw [hm]
    simp [jgt0]
  · intro hm
    unfold statCom
    rw [if_neg (by rw [hm]; simp)]

theorem degenerate_denominators_undefined_witness :
    lagrangeLam (fun _ _ => some 0) (some 1) (some 1) 0 0 1 = none ∧
    statCom ⟨none, none, 0, some 0, some 5, some 6, some 7⟩ = (none, none, none) := by
  have h := degenerate_denominators_undefined (fun _ _ => some 0) (some 1) (some 1) 0 0 1
    ⟨none, none, 0, some 0, some 5, some 6, some 7⟩
  exact ⟨h.1 (by with_unfolding_all rfl), h.2.2.1 rfl⟩

theorem foldl_statStep_zMin (f : Fn3) (dens : Fn2) (dom : Option Fn2) (dA : ℚ) :
    ∀ (ps : List (ℚ × ℚ)) (acc : GStats),
      (ps.foldl (statStep f dens dom dA) acc).zMin =
        (ps.filterMap fun p => statContrib f dom p.1 p.2).foldl minUpd acc.zMin := by
  intro ps
  induction ps with
  | nil => intro acc; rfl
  | cons p ps ih =>
    intro acc
    rw [List.foldl_cons, List.filterMap_cons]
    cases hc : statContrib f dom p.1 p.2 with
    | none =>
      rw [show statStep f dens dom dA acc p = acc from by unfold statStep; rw [hc]]
      exact ih acc
    | some z =>
      rw [show statStep f dens dom dA acc p = statUpdate dens dA acc p.1 p.2 z from by
        unfold statStep; rw [hc]]
      rw [List.foldl_cons, ih]
      rfl

theorem foldl_statStep_zMax (f : Fn3) (dens : Fn2) (dom : Option Fn2) (dA : ℚ) :
    ∀ (ps : List (ℚ × ℚ)) (acc : GStats),
      (ps.foldl (statStep f dens dom dA) acc).zMax =
        (ps.filterMap fun p => statContrib f dom p.1 p.2).foldl maxUpd acc.zMax := by
  intro ps
  induction ps with
  | nil => intro acc; rfl
  | cons p ps ih =>
    intro acc
    rw [List.foldl_cons, List.filterMap_cons]
    cases hc : statContrib f dom p.1 p.2 with
    | none =>
      rw [show statStep f dens dom dA acc p = acc from by unfold statStep; rw [hc]]
      exact ih acc
    | some z =>
      rw [show statStep f dens dom dA acc p = statUpdate dens dA acc p.1 p.2 z from by
        unfold statStep; rw [hc]]
      rw [List.foldl_cons, ih]
      rfl

theorem foldl_minUpd_some_spec :
    ∀ (l : List ℚ) (c : ℚ),
      ∃ m, l.foldl minUpd (some c) = some m ∧ (m = c ∨ m ∈ l) ∧ m ≤ c ∧ ∀ q ∈ l, m ≤ q := by
  intro l
  induction l with
  | nil => intro c; exact ⟨c, rfl, Or.inl rfl, le_refl c, by simp⟩
  | cons q l ih =>
    intro c
    rw [List.foldl_cons]
    obtain ⟨m, hm, hmem, hle, hall⟩ := ih (min c q)
    refine ⟨m, hm, ?_, le_trans hle (min_le_left c q), ?_⟩
    · rcases hmem with rfl | hmem
      · rcases min_choice c q with hc | hc
        · exact Or.inl (by rw [hc])
        · exact Or.inr (by rw [hc]; simp)
      · exact Or.inr (List.mem_cons_of_mem q hmem)
    · intro q' hq'
      rcases List.mem_cons.mp hq' with rfl | hq'
      · exact le_trans hle (min_le_right c q')
      · exact hall q' hq'

theorem foldl_minUpd_spec (l : List ℚ) (hne : l ≠ []) :
    ∃ m, l.foldl minUpd none = some m ∧ m ∈ l ∧ ∀ q ∈ l, m ≤ q := by
  cases l with
  | nil => exact absurd rfl hne
  | cons c l =>
    rw [List.foldl_cons]
    obtain ⟨m, hm, hmem, hle, hall⟩ := foldl_minUpd_some_spec l c
    refine ⟨m, hm, ?_, ?_⟩
    · rcases hmem with rfl | hmem
      · simp
      · exact List.mem_cons_of_mem c hmem
    · intro q hq
      rcases List.mem_cons.mp hq with rfl | hq
      · exact hle
      · exact hall q hq

theorem foldl_maxUpd_some_spec :
    ∀ (l : List ℚ) (c : ℚ),
      ∃ m, l.foldl maxUpd (some c) = some m ∧ (m = c ∨ m ∈ l) ∧ c ≤ m ∧ ∀ q ∈ l, q ≤ m := by
  intro l
  induction l with
  | nil => intro c; exact ⟨c, rfl, Or.inl rfl, le_refl c, by simp⟩
  | cons q l ih =>
    intro c
    rw [List.foldl_cons]
    obtain ⟨m, hm, hmem, hle, hall⟩ := ih (max c q)
    refine ⟨m, hm, ?_, le_trans (le_max_left c q) hle, ?_⟩
    · rcases hmem with rfl | hmem
      · rcases max_choice c q with hc | hc
        · exact Or.inl (by rw [hc])
        · exact Or.inr (by rw [hc]; simp)
      · exact Or.inr (List.mem_cons_of_mem q hmem)
    · intro q' hq'
      rcases List.mem_cons.mp hq' with rfl | hq'
      · exact le_trans (le_max_right c q') hle
      · exact hall q' hq'

theorem foldl_maxUpd_spec (l : List ℚ) (hne : l ≠ []) :
    ∃ m, l.foldl maxUpd none = some m ∧ m ∈ l ∧ ∀ q ∈ l, q ≤ m := by
  cases l with
  | nil => exact absurd rfl hne
  | cons c l =>
    rw [List.foldl_cons]
    obtain ⟨m, hm, hmem, hle, hall⟩ := foldl_maxUpd_some_spec l c
    refine ⟨m, hm, ?_, ?_⟩
    · rcases hmem with rfl | hmem
      · simp
      · exact List.mem_cons_of_mem c hmem
    · intro q hq
      rcases List.mem_cons.mp hq with rfl | hq
      · exact hle
      · exact hall q hq

/-- C8: the zMin/zMax reported by the statistics pass bound every
admissible (in-mask, finite) sample of its grid, and the bounds are exact:
whenever an admissible sample exists, zMin and zMax are finite, sandwich
every admissible sample, and are themselves attained by admissible samples;
with no admissible sample both are the invalid marker (the source's
`Infinity → NaN` conversion). -/
theorem globalStats_bounds_exact (f : Fn3) (dens : Fn2) (dom : Option Fn2)
    (range : ℚ) (res : ℕ) :
    (∀ q ∈ statSamples f dom range res,
      ∃ m M, (globalStats f dens dom range res).zMin = some m ∧
        (globalStats f dens dom range res).zMax = some M ∧
        m ≤ q ∧ q ≤ M ∧
        m ∈ statSamples f dom range res ∧ M ∈ statSamples f dom range res) ∧
    (statSamples f dom range res = [] →
      (globalStats f dens dom range res).zMin = none ∧
      (globalStats f dens dom range res).zMax = none) := by
  have hzmin : (globalStats f dens dom range res).zMin =
      (statSamples f dom range res).foldl minUpd none := by
    unfold globalStats statSamples
    rw [foldl_statStep_zMin]
    rfl
  have hzmax : (globalStats f dens dom range res).zMax =
      (statSamples f dom range res).foldl maxUpd none := by
    unfold globalStats statSamples
    rw [foldl_statStep_zMax]
    rfl
  constructor
  · intro q hq
    have hne : statSamples f dom range res ≠ [] := by
      intro h
      rw [h] at hq
      exact absurd hq (by simp)
    obtain ⟨m, hm, hmm, hml⟩ := foldl_minUpd_spec _ hne
    obtain ⟨M, hM, hMm, hMl⟩ := foldl_maxUpd_spec _ hne
    exact ⟨m, M, by rw [hzmin, hm], by rw [hzmax, hM], hml q hq, hMl q hq, hmm, hMm⟩
  · intro h
    rw [hzmin, hzmax, h]
    exact ⟨rfl, rfl⟩

set_option maxRecDepth 4000 in
theorem globalStats_bounds_exact_witness :
    ((globalStats (fun _ _ _ => none) (fun _ _ => some 1) none 1 0).zMin = none ∧
     (globalStats (fun _ _ _ => none) (fun _ _ => some 1) none 1 0).zMax = none) ∧
    (∃ m M, (globalStats (fun _ _ _ => some 1) (fun _ _ => some 1) none 1 0).zMin = some m ∧
      (globalStats (fun _ _ _ => some 1) (fun _ _ => some 1) none 1 0).zMax = some M ∧
      m ≤ 1 ∧ 1 ≤ M ∧
      m ∈ statSamples (fun _ _ _ => some 1) none 1 0 ∧
      M ∈ statSamples (fun _ _ _ => some 1) none 1 0) := by
  constructor
  · exact (globalStats_bounds_exact (fun _ _ _ => none) (fun _ _ => some 1) none 1 0).2 rfl
  · exact (globalStats_bounds_exact (fun _ _ _ => some 1) (fun _ _ => some 1) none 1 0).1 1
      (List.mem_cons_self 1 _)

theorem const_statStep (dA : ℚ) (acc : GStats) (p : ℚ × ℚ) :
    statStep (fun _ _ _ => some 1) (fun _ _ => some 1) none dA acc p =
      { zMin := minUpd acc.zMin 1, zMax := maxUpd acc.zMax 1, vol := acc.vol + dA,
        mass := jadd acc.mass (some dA), mx := jadd acc.mx (some (p.1 * dA)),
        my := jadd acc.my (some (p.2 * dA)), mz := jadd acc.mz (some (dA / 2)) } := by
  have h1 : max (0:ℚ) 1 = 1 := by norm_num
  have h2 : (2⁻¹ : ℚ) * dA = dA / 2 := by ring
  simp [statStep, statContrib, insideDom, statUpdate, jadd, jmul, h1, h2]

theorem const_fold_vol (dA : ℚ) :
    ∀ (ps : List (ℚ × ℚ)) (acc : GStats),
      (ps.foldl (statStep (fun _ _ _ => some 1) (fun _ _ => some 1) none dA) acc).vol =
        acc.vol + ps.length * dA := by
  intro ps
  induction ps with
  | nil => intro acc; simp
  | cons p ps ih =>
    intro acc
    rw [List.foldl_cons, const_statStep, ih]
    simp only [List.length_cons, List.map_cons, List.sum_cons]
    push_cast
    ring

theorem const_fold_mass (dA : ℚ) :
    ∀ (ps : List (ℚ × ℚ)) (acc : GStats) (m : ℚ), acc.mass = some m →
      (ps.foldl (statStep (fun _ _ _ => some 1) (fun _ _ => some 1) none dA) acc).mass =
        some (m + ps.length * dA) := by
  intro ps
  induction ps with
  | nil => intro acc m hm; simpa using hm
  | cons p ps ih =>
    intro acc m hm
    rw [List.foldl_cons, const_statStep,
      ih _ (m + dA) (by simp [jadd, hm])]
    simp only [List.length_cons, List.map_cons, List.sum_cons]
    push_cast
    ring_nf

theorem const_fold_mx (dA : ℚ) :
    ∀ (ps : List (ℚ × ℚ)) (acc : GStats) (x0 : ℚ), acc.mx = some x0 →
      (ps.foldl (statStep (fun _ _ _ => some 1) (fun _ _ => some 1) none dA) acc).mx =
        some (x0 + dA * (ps.map Prod.fst).sum) := by
  intro ps
  induction ps with
  | nil => intro acc x0 hx; simpa using hx
  | cons p ps ih =>
    intro acc x0 hx
    rw [List.foldl_cons, const_statStep,
      ih _ (x0 + p.1 * dA) (by simp [jadd, hx])]
    simp only [List.length_cons, List.map_cons, List.sum_cons]
    ring_nf

theorem const_fold_my (dA : ℚ) :
    ∀ (ps : List (ℚ × ℚ)) (acc : GStats) (y0 : ℚ), acc.my = some y0 →
      (ps.foldl (statStep (fun _ _ _ => some 1) (fun _ _ => some 1) none dA) acc).my =
        some (y0 + dA * (ps.map Prod.snd).sum) := by
  intro ps
  induction ps with
  | nil => intro acc y0 hy; simpa using hy
  | cons p ps ih =>
    intro acc y0 hy
    rw [List.foldl_cons, const_statStep,
      ih _ (y0 + p.2 * dA) (by simp [jadd, hy])]
    simp only [List.length_cons, List.map_cons, List.sum_cons]
    ring_nf

theorem const_fold_mz (dA : ℚ) :
    ∀ (ps : List (ℚ × ℚ)) (acc : GStats) (z0 : ℚ), acc.mz = some z0 →
      (ps.foldl (statStep (fun _ _ _ => some 1) (fun _ _ => some 1) none dA) acc).mz =
        some (z0 + ps.length * (dA / 2)) := by
  intro ps
  induction ps with
  | nil => intro acc z0 hz; simpa using hz
  | cons p ps ih =>
    intro acc z0 hz
    rw [List.foldl_cons, const_statStep,
      ih _ (z0 + dA / 2) (by simp [jadd, hz])]
    simp only [List.length_cons, List.map_cons, List.sum_cons]
    push_cast
    ring_nf

theorem sum_affine (a b : ℚ) :
    ∀ N : ℕ, ((List.range N).map (fun (i : ℕ) => a + ((i : ℚ) + 1/2) * b)).sum =
      N * a + (N * N / 2) * b := by
  intro N
  induction N with
  | zero => simp
  | succ n ih =>
    rw [List.range_succ, List.map_append, List.sum_append, ih]
    push_cast
    simp
    ring

theorem flatMap_sum (g : ℕ → List ℚ) :
    ∀ l : List ℕ, (l.flatMap g).sum = (l.map (fun a => (g a).sum)).sum := by
  intro l
  induction l with
  | nil => simp
  | cons a l ih => simp [List.flatMap_cons, List.sum_append, ih]

theorem map_const_sum (c : ℚ) :
    ∀ {α : Type} (l : List α), (l.map (fun _ => c)).sum = l.length * c := by
  intro α l
  induction l with
  | nil => simp
  | cons a l ih =>
    simp [ih]
    ring

theorem statPoints_length (range : ℚ) (N : ℕ) : (statPoints range N).length = N * N := by
  unfold statPoints
  rw [List.length_flatMap]
  simp [Function.comp_def, List.length_map, List.length_range, List.map_const',
    List.sum_replicate, smul_eq_mul]

theorem statPoints_sum_fst (range : ℚ) (N : ℕ) (hN : (N : ℚ) ≠ 0) :
    ((statPoints range N).map Prod.fst).sum = 0 := by
  unfold statPoints
  rw [List.map_flatMap, flatMap_sum]
  have hsum : ((List.range N).map (fun (i : ℕ) =>
      -range + ((i : ℚ) + 1/2) * (2 * range / N))).sum = 0 := by
    rw [sum_affine]
    field_simp
    ring
  have hrw : (List.map (fun (j : ℕ) => (List.map Prod.fst ((List.range N).map (fun (i : ℕ) =>
      (-range + ((i : ℚ) + 1/2) * (2 * range / N),
       -range + ((j : ℚ) + 1/2) * (2 * range / N))))).sum) (List.range N)) =
      (List.range N).map (fun _ => (0 : ℚ)) := by
    apply List.map_congr_left
    intro j hj
    rw [show (List.map Prod.fst ((List.range N).map (fun (i : ℕ) =>
      (-range + ((i : ℚ) + 1/2) * (2 * range / N),
       -range + ((j : ℚ) + 1/2) * (2 * range / N))))) =
      (List.range N).map (fun (i : ℕ) => -range + ((i : ℚ) + 1/2) * (2 * range / N)) from by
        simp [List.map_map, Function.comp_def]]
    exact hsum
  rw [hrw, map_const_sum]
  simp

theorem statPoints_sum_snd (range : ℚ) (N : ℕ) (hN : (N : ℚ) ≠ 0) :
    ((statPoints range N).map Prod.snd).sum = 0 := by
  unfold statPoints
  rw [List.map_flatMap, flatMap_sum]
  have hrw : (List.map (fun (j : ℕ) => (List.map Prod.snd ((List.range N).map (fun (i : ℕ) =>
      (-range + ((i : ℚ) + 1/2) * (2 * range / N),
       -range + ((j : ℚ) + 1/2) * (2 * range / N))))).sum) (List.range N)) =
      (List.range N).map (fun (j : ℕ) =>
        (N : ℚ) * (-range + ((j : ℚ) + 1/2) * (2 * range / N))) := by
    apply List.map_congr_left
    intro j hj
    rw [show (List.map Prod.snd ((List.range N).map (fun (i : ℕ) =>
      (-range + ((i : ℚ) + 1/2) * (2 * range / N),
       -range + ((j : ℚ) + 1/2) * (2 * range / N))))) =
      (List.range N).map (fun (_ : ℕ) => -range + ((j : ℚ) + 1/2) * (2 * range / N)) from by
        simp [List.map_map, Function.comp_def]]
    rw [map_const_sum]
    simp [List.length_range]
  rw [hrw]
  have := List.sum_map_mul_left (List.range N)
    (fun (j : ℕ) => -range + ((j : ℚ) + 1/2) * (2 * range / N)) (N : ℚ)
  rw [this, sum_affine]
  field_simp
  ring

/-- C9: integrating the constant field `f(x,y) = 1` with density `σ = 1`
over `[-R, R]²` with no domain mask yields volume = mass = `(2R)²` exactly,
and centroid `(0, 0, 1/2)` (exact in the rational idealisation; the spec's
`≈` allows for floating-point rounding). -/
theorem integrate_constant_field (range : ℚ) (res : ℕ) (hr : 0 < range) :
    (globalStats (fun _ _ _ => some 1) (fun _ _ => some 1) none range res).vol =
      (2 * range) ^ 2 ∧
    (globalStats (fun _ _ _ => some 1) (fun _ _ => some 1) none range res).mass =
      some ((2 * range) ^ 2) ∧
    statCom (globalStats (fun _ _ _ => some 1) (fun _ _ => some 1) none range res) =
      (some 0, some 0, some (1 / 2)) := by
  have hNpos : 0 < statN res := lt_of_lt_of_le (by norm_num) (le_max_left 16 _)
  have hNQ : (statN res : ℚ) ≠ 0 := Nat.cast_ne_zero.mpr hNpos.ne'
  set N := statN res with hN
  set dA := (2 * range / N) * (2 * range / N) with hdA
  have hout : globalStats (fun _ _ _ => some 1) (fun _ _ => some 1) none range res =
      (statPoints range N).foldl
        (statStep (fun _ _ _ => some 1) (fun _ _ => some 1) none dA) statInit := rfl
  have hlen : ((statPoints range N).length : ℚ) = (N : ℚ) * N := by
    rw [statPoints_length]
    push_cast
    ring
  have hvol : (globalStats (fun _ _ _ => some 1) (fun _ _ => some 1) none range res).vol =
      (2 * range) ^ 2 := by
    rw [hout, const_fold_vol, hlen]
    show (0 : ℚ) + _ = _
    rw [hdA]
    field_simp
    ring
  have hmass : (globalStats (fun _ _ _ => some 1) (fun _ _ => some 1) none range res).mass =
      some ((2 * range) ^ 2) := by
    rw [hout, const_fold_mass dA _ _ 0 rfl, hlen, hdA]
    congr 1
    field_simp
    ring
  have hmx : (globalStats (fun _ _ _ => some 1) (fun _ _ => some 1) none range res).mx =
      some 0 := by
    rw [hout, const_fold_mx dA _ _ 0 rfl, statPoints_sum_fst range N hNQ]
    simp
  have hmy : (globalStats (fun _ _ _ => some 1) (fun _ _ => some 1) none range res).my =
      some 0 := by
    rw [hout, const_fold_my dA _ _ 0 rfl, statPoints_sum_snd range N hNQ]
    simp
  have hmz : (globalStats (fun _ _ _ => some 1) (fun _ _ => some 1) none range res).mz =
      some (2 * range ^ 2) := by
    rw [hout, const_fold_mz dA _ _ 0 rfl, hlen, hdA]
    congr 1
    field_simp
    ring
  refine ⟨hvol, hmass, ?_⟩
  have hpos : (0 : ℚ) < (2 * range) ^ 2 := by positivity
  unfold statCom
  rw [hmass, hmx, hmy, hmz]
  rw [show jgt0 (some ((2 * range) ^ 2)) = true from by simp [jgt0, hpos]]
  simp only [if_true]
  refine Prod.ext ?_ (Prod.ext ?_ ?_) <;> simp [jdiv, hpos.ne']
  · field_simp
    ring

theorem integrate_constant_field_witness :
    (globalStats (fun _ _ _ => some 1) (fun _ _ => some 1) none 1 16).vol = 4 ∧
    (globalStats (fun _ _ _ => some 1) (fun _ _ => some 1) none 1 16).mass = some 4 ∧
    statCom (globalStats (fun _ _ _ => some 1) (fun _ _ => some 1) none 1 16) =
      (some 0, some 0, some (1 / 2)) := by
  have h := integrate_constant_field 1 16 (by norm_num)
  norm_num at h
  exact h

theorem jgt0_imp_jlt0_false (v : JNum) (h : jgt0 v = true) : jlt0 v = false := by
  cases v with
  | none => rfl
  | some a =>
    rw [jgt0, decide_eq_true_iff] at h
    rw [jlt0, decide_eq_false_iff_not]
    exact not_lt.mpr (le_of_lt h)

theorem scanClassify_some_iff (f : Fn2) (dom : Option Fn2) (range : ℚ) (N i j : ℕ)
    (pt : CritPoint) :
    scanClassify f dom range N i j = some pt ↔
      insideDom dom (scanX range N i) (scanX range N j) = true ∧
      gradSkip (scanFx f range N i j) (scanFy f range N i j) (epsGrad range) = false ∧
      ∃ d z, scanD f range N i j = some d ∧
        f (scanX range N i) (scanX range N j) = some z ∧
        ((0 < d ∧ jlt0 (scanFxx f range N i j) = true ∧
            pt = ⟨scanX range N i, scanX range N j, z, CPKind.max⟩) ∨
         (0 < d ∧ jgt0 (scanFxx f range N i j) = true ∧
            pt = ⟨scanX range N i, scanX range N j, z, CPKind.min⟩) ∨
         (d < 0 ∧ pt = ⟨scanX range N i, scanX range N j, z, CPKind.saddle⟩)) := by
  unfold scanClassify
  dsimp only
  constructor
  · intro h
    by_cases hin : insideDom dom (scanX range N i) (scanX range N j) = true
    · rw [if_pos hin] at h
      by_cases hgs : gradSkip (scanFx f range N i j) (scanFy f range N i j)
          (epsGrad range) = true
      · rw [if_pos hgs] at h
        exact absurd h (by simp)
      · rw [if_neg hgs] at h
        refine ⟨hin, eq_false_of_ne_true hgs, ?_⟩
        cases hD : scanD f range N i j with
        | none => rw [hD] at h; exact absurd h (by simp)
        | some d =>
          cases hz : f (scanX range N i) (scanX range N j) with
          | none => rw [hD, hz] at h; exact absurd h (by simp)
          | some z =>
            rw [hD, hz] at h
            simp only at h
            refine ⟨d, z, rfl, rfl, ?_⟩
            split_ifs at h with h1 h2 h3
            · rw [Option.some.injEq] at h
              rw [Bool.and_eq_true, decide_eq_true_iff] at h1
              exact Or.inl ⟨h1.1, h1.2, h.symm⟩
            · rw [Option.some.injEq] at h
              rw [Bool.and_eq_true, decide_eq_true_iff] at h2
              exact Or.inr (Or.inl ⟨h2.1, h2.2, h.symm⟩)
            · rw [Option.some.injEq] at h
              rw [decide_eq_true_iff] at h3
              exact Or.inr (Or.inr ⟨h3, h.symm⟩)
    · rw [if_neg hin] at h
      exact absurd h (by simp)
  · rintro ⟨hin, hgs, d, z, hd, hz, hcase⟩
    rw [if_pos hin, if_neg (by rw [hgs]; exact Bool.false_ne_true), hd, hz]
    simp only
    rcases hcase with ⟨hdpos, hfxx, rfl⟩ | ⟨hdpos, hfxx, rfl⟩ | ⟨hdneg, rfl⟩
    · rw [if_pos (by rw [Bool.and_eq_true, decide_eq_true_iff]; exact ⟨hdpos, hfxx⟩)]
    · rw [if_neg (by
          rw [Bool.and_eq_true, jgt0_imp_jlt0_false _ hfxx]
          rintro ⟨-, hlt⟩
          exact Bool.false_ne_true hlt),
        if_pos (by rw [Bool.and_eq_true, decide_eq_true_iff]; exact ⟨hdpos, hfxx⟩)]
    · have hnd : decide (0 < d) = false := by
        rw [decide_eq_false_iff_not]
        exact not_lt.mpr (le_of_lt hdneg)
      rw [if_neg (by rw [hnd]; simp), if_neg (by rw [hnd]; simp),
        if_pos (by rw [decide_eq_true_iff]; exact hdneg)]

/-- C3: a point is reported by the critical-point scan exactly when it is an
interior grid point (indices 1 … Nx−2) inside the domain mask whose
finite-difference gradient is finite with norm not exceeding
`ε = 1e-2·max(1, range)` (the `gradSkip` test, expressed through the squared
norm), whose discriminant `D = fxx·fyy − fxy²` and value `z` are finite, and
which is classified `max` when `D>0 ∧ fxx<0`, `min` when `D>0 ∧ fxx>0` and
`saddle` when `D<0`; points with `D = 0` (and the vacuous `D>0 ∧ fxx=0`
case) are dropped.  The positivity of `range` records the regime in which
the rational embedding of the divisions is faithful (`dx > 0`). -/
theorem scan_characterization (f : Fn2) (dom : Option Fn2) (range : ℚ) (res : ℕ)
    (hr : 0 < range) (pt : CritPoint) :
    pt ∈ scanExtrema f dom range res ↔
      ∃ i j : ℕ, 1 ≤ i ∧ i ≤ scanRes res - 2 ∧ 1 ≤ j ∧ j ≤ scanRes res - 2 ∧
        insideDom dom (scanX range (scanRes res) i) (scanX range (scanRes res) j) = true ∧
        gradSkip (scanFx f range (scanRes res) i j) (scanFy f range (scanRes res) i j)
          (epsGrad range) = false ∧
        ∃ d z, scanD f range (scanRes res) i j = some d ∧
          f (scanX range (scanRes res) i) (scanX range (scanRes res) j) = some z ∧
          ((0 < d ∧ jlt0 (scanFxx f range (scanRes res) i j) = true ∧
              pt = ⟨scanX range (scanRes res) i, scanX range (scanRes res) j, z, CPKind.max⟩) ∨
           (0 < d ∧ jgt0 (scanFxx f range (scanRes res) i j) = true ∧
              pt = ⟨scanX range (scanRes res) i, scanX range (scanRes res) j, z, CPKind.min⟩) ∨
           (d < 0 ∧
              pt = ⟨scanX range (scanRes res) i, scanX range (scanRes res) j, z,
                CPKind.saddle⟩)) := by
  have h24 : 24 ≤ scanRes res := le_max_left 24 _
  unfold scanExtrema
  dsimp only
  rw [List.mem_flatMap]
  constructor
  · rintro ⟨i, hi, hmem⟩
    rw [List.mem_filterMap] at hmem
    obtain ⟨j, hj, hcl⟩ := hmem
    rw [List.mem_range'_1] at hi hj
    rw [scanClassify_some_iff] at hcl
    exact ⟨i, j, hi.1, by omega, hj.1, by omega, hcl.1, hcl.2.1, hcl.2.2⟩
  · rintro ⟨i, j, hi1, hi2, hj1, hj2, hin, hgs, hex⟩
    refine ⟨i, by rw [List.mem_range'_1]; omega, ?_⟩
    rw [List.mem_filterMap]
    exact ⟨j, by rw [List.mem_range'_1]; omega,
      (scanClassify_some_iff f dom range (scanRes res) i j pt).mpr ⟨hin, hgs, hex⟩⟩

theorem scan_characterization_witness :
    (⟨0, 0, 0, CPKind.saddle⟩ : CritPoint) ∈
      scanExtrema (fun x y => some (x^2 - y^2)) none 1 0 := by
  refine (scan_characterization (fun x y => some (x^2 - y^2)) none 1 0 (by norm_num)
    ⟨0, 0, 0, CPKind.saddle⟩).mpr
    ⟨12, 12, by decide, by decide, by decide, by decide, rfl, ?_, -4, 0, ?_, ?_,
      Or.inr (Or.inr ⟨by norm_num, ?_⟩)⟩
  · with_unfolding_all rfl
  · with_unfolding_all rfl
  · with_unfolding_all rfl
  · with_unfolding_all rfl
